import Mathlib

set_option maxRecDepth 100000

/-!
Verification of the git-caching-proxy repository: the pkt-line codec and the
v2 protocol adapter of `src/git_proxy.py` (the identical codec also appears in
`src/git_proxyv2.py`), and the legacy `ls-remote` advertisement generator of
`src/ls_remote_proxy.py`.

Byte strings are modelled as `List Nat`, one entry per byte.  Text handled by
the Python `str` code of `ls_remote_proxy.py` is modelled at its ASCII code
points, which covers every byte `git ls-remote` emits.
-/

/-- ASCII code points of a string literal; used to transcribe the byte and
string literals of the source files. -/
def bytesOfAscii (s : String) : List Nat :=
  s.data.map (fun c => c.toNat)

/-- Python `bytes` whitespace (tab, newline, vertical tab, form feed,
carriage return, space), as stripped by `bytes.rstrip()` and at the ends of
the argument of `int(-, 16)` on bytes. -/
def isPySpace (b : Nat) : Bool :=
  b == 32 || (9 ≤ b && b ≤ 13)

/-- Python `str` whitespace restricted to the ASCII range, as stripped by
`str.rstrip()`; this adds the separator control characters 0x1c-0x1f. -/
def isStrSpace (b : Nat) : Bool :=
  b == 32 || (9 ≤ b && b ≤ 13) || (28 ≤ b && b ≤ 31)

/-- Python `bytes.rstrip()` with no argument. -/
def pyRstrip (l : List Nat) : List Nat :=
  (l.reverse.dropWhile isPySpace).reverse

/-- Python `str.rstrip()` with no argument (ASCII fragment). -/
def pyStrRstrip (l : List Nat) : List Nat :=
  (l.reverse.dropWhile isStrSpace).reverse

/-- Python `bytes.rstrip(b'\n')`: drops trailing newline bytes only. -/
def rstripNl (l : List Nat) : List Nat :=
  (l.reverse.dropWhile (fun b => b == 10)).reverse

/-- Strip Python `bytes` whitespace from both ends, as `int(-, 16)` does
before reading a sign and digits. -/
def stripWS (l : List Nat) : List Nat :=
  ((l.dropWhile isPySpace).reverse.dropWhile isPySpace).reverse

/-- The characters `int(-, 16)` accepts as digits: `0-9`, `a-f`, `A-F`. -/
def isHexDigit (b : Nat) : Bool :=
  (48 ≤ b && b ≤ 57) || (97 ≤ b && b ≤ 102) || (65 ≤ b && b ≤ 70)

/-- Numeric value of a base-16 digit character. -/
def hexVal (b : Nat) : Nat :=
  if b ≤ 57 then b - 48 else if b ≤ 70 then b - 55 else b - 87

/-- Digits of a Python base-16 literal after its first digit: single
underscores are permitted between digits, nowhere else. -/
def hexDigitsCore (acc : Nat) : List Nat → Option Nat
  | [] => some acc
  | b :: rest =>
    if b = 95 then
      match rest with
      | [] => none
      | c :: rest2 =>
        if isHexDigit c then hexDigitsCore (16 * acc + hexVal c) rest2 else none
    else if isHexDigit b then hexDigitsCore (16 * acc + hexVal b) rest
    else none

/-- A nonempty run of base-16 digits with interior underscores, starting with
a digit; the digit grammar of Python `int(-, 16)`. -/
def pyHexDigits : List Nat → Option Nat
  | [] => none
  | b :: rest => if isHexDigit b then hexDigitsCore (hexVal b) rest else none

/-- Digits after a `0x` marker: Python additionally permits one underscore
directly after the marker. -/
def pyHexAfterMark (l : List Nat) : Option Nat :=
  if l.head? = some 95 then pyHexDigits l.tail else pyHexDigits l

/-- The unsigned part of a Python base-16 literal: an optional `0x`/`0X`
marker followed by digits. -/
def pyHexBody (l : List Nat) : Option Nat :=
  match l with
  | a :: b :: rest =>
    if a = 48 ∧ (b = 120 ∨ b = 88) then pyHexAfterMark rest else pyHexDigits l
  | _ => pyHexDigits l

/-- Python `int(data, 16)` on a byte string: strip whitespace, read an
optional sign, then an optional `0x`/`0X` marker and digits.  `none` models
the `ValueError` raised on any other input. -/
def pyIntHex (l : List Nat) : Option Int :=
  match stripWS l with
  | [] => none
  | d :: rest =>
    if d = 43 then (pyHexBody rest).map (fun n => (n : Int))
    else if d = 45 then (pyHexBody rest).map (fun n => -(n : Int))
    else (pyHexBody (d :: rest)).map (fun n => (n : Int))

/-- The pkt-line type of `git_proxy.py`: the four members of the
`PktLineConstants` enum plus `PktLineData`. -/
inductive PktLine where
  | flush
  | delimiter
  | responseEnd
  | invalid
  | data (payload : List Nat)
deriving DecidableEq

/-- The `PktLineConstants(pkt_length)` enum lookup; `none` models the
`ValueError` raised for a value outside `0..3`. -/
def PktLineConstants : Int → Option PktLine
  | 0 => some PktLine.flush
  | 1 => some PktLine.delimiter
  | 2 => some PktLine.responseEnd
  | 3 => some PktLine.invalid
  | _ => none

/-- Outcome of one iteration of the `while` loop of `parse_pkt_lines`,
expressed on the unconsumed suffix of the buffer: the loop either returns
(with the suffix as the remainder), appends one pkt and continues on `rest`,
or raises (`err`). -/
inductive StepResult where
  | done (tail : List Nat)
  | emit (pkt : PktLine) (rest : List Nat)
  | err
deriving DecidableEq

/-- One iteration of the loop of `parse_pkt_lines` (`git_proxy.py` lines
81-93), acting on the suffix `data[offset:]`: fewer than four bytes return;
otherwise the four-byte length is read with `int(-, 16)`, lengths below
four emit the corresponding control pkt and advance four bytes, and other
lengths emit a data pkt and advance `pkt_length` bytes when enough bytes
remain. -/
def parseStep (data : List Nat) : StepResult :=
  if data.length < 4 then StepResult.done data
  else
    match pyIntHex (data.take 4) with
    | none => StepResult.err
    | some pktLength =>
      if pktLength < 4 then
        match PktLineConstants pktLength with
        | some c => StepResult.emit c (data.drop 4)
        | none => StepResult.err
      else
        if (data.length : Int) < pktLength then StepResult.done data
        else
          StepResult.emit (PktLine.data ((data.take pktLength.toNat).drop 4))
            (data.drop pktLength.toNat)

/-- Fuel-indexed iteration of `parseStep`.  Every emitting step consumes at
least four bytes, so `data.length + 1` units of fuel always suffice; the
`0` case is unreachable from `parse_pkt_lines`. -/
def parseFuel : Nat → List Nat → Option (List PktLine × List Nat)
  | 0, _ => none
  | fuel + 1, data =>
    match parseStep data with
    | StepResult.done tail => some ([], tail)
    | StepResult.err => none
    | StepResult.emit pkt rest =>
      match parseFuel fuel rest with
      | none => none
      | some (pkts, tail) => some (pkt :: pkts, tail)

/-- `parse_pkt_lines(data)` of `git_proxy.py` lines 77-93: returns the parsed
pkt sequence and the unconsumed remainder, or `none` when the Python code
raises (`int` on a malformed length, or `PktLineConstants` on a negative
one). -/
def parse_pkt_lines (data : List Nat) : Option (List PktLine × List Nat) :=
  parseFuel (data.length + 1) data

/-- Lowercase hex digit character of a value below 16, as produced by the
Python format specifier `x`. -/
def hexChar (n : Nat) : Nat :=
  if n < 10 then 48 + n else 87 + n

/-- Fuel-indexed big-endian hex digits of `n`; `fuel = n` always suffices
because the recursion divides by 16. -/
def toHexDigitsAux : Nat → Nat → List Nat
  | 0, n => [hexChar (n % 16)]
  | fuel + 1, n =>
    if n < 16 then [hexChar n]
    else toHexDigitsAux fuel (n / 16) ++ [hexChar (n % 16)]

/-- Big-endian lowercase hex digits of `n`, no leading zeroes (`f'-:x-'`
with the braces elided). -/
def toHexDigits (n : Nat) : List Nat :=
  toHexDigitsAux n n

/-- Python `f'-:04x-'` formatting (braces elided): lowercase hex digits
left-padded with `0` to at least four characters. -/
def pyHex04 (n : Nat) : List Nat :=
  List.replicate (4 - (toHexDigits n).length) 48 ++ toHexDigits n

/-- `encode_pkt_line` of `ls_remote_proxy.py` lines 23-25: the four (or, for
overlong payloads, more) hex digits of `len(line) + 4` followed by the
line. -/
def encode_pkt_line (line : List Nat) : List Nat :=
  pyHex04 (line.length + 4) ++ line

/-- Encoding of a pkt-line per spec section 4.1: control markers as their
literal four-byte wire forms, data as `encode_pkt_line` of the payload.  The
reserved marker `0003` is included for totality; the spec never emits it. -/
def encodePkt : PktLine → List Nat
  | PktLine.flush => bytesOfAscii "0000"
  | PktLine.delimiter => bytesOfAscii "0001"
  | PktLine.responseEnd => bytesOfAscii "0002"
  | PktLine.invalid => bytesOfAscii "0003"
  | PktLine.data payload => encode_pkt_line payload

/-- The pkt-lines covered by the round-trip claim: the three control markers
and data pkts of payload length at most 65516. -/
def pktEncodable : PktLine → Bool
  | PktLine.flush => true
  | PktLine.delimiter => true
  | PktLine.responseEnd => true
  | PktLine.invalid => false
  | PktLine.data payload => payload.length ≤ 65516

/-- A `git` child process spawned by the v2 adapter, with the arguments the
claims inspect. -/
inductive Spawn where
  | clone
  | infoRefsAdvert
  | fetch (refspecs : List (List Nat))
  | uploadPack (body : List Nat)
deriving DecidableEq

/-- How a request handler failed: `httpException s` models a raised
`fastapi.HTTPException(status_code = s)`; `uncaught` models any other
uncaught Python exception. -/
inductive HandlerError where
  | httpException (status : Nat)
  | uncaught
deriving DecidableEq

/-- Modelled from the spec: the HTTP framework (FastAPI/Starlette, outside
`src/`) answers a raised `HTTPException` with its own status code and any
other uncaught exception with status 500. -/
def httpStatus : HandlerError → Nat
  | HandlerError.httpException s => s
  | HandlerError.uncaught => 500

/-- The byte literal `b'command='` of `get_git_command`. -/
def CMD_MARK : List Nat := bytesOfAscii "command="

/-- `get_git_command(pkt)` of `git_proxy.py` lines 153-158: requires a data
pkt whose payload starts with `command=`, returning the payload with that
marker removed and trailing newlines stripped; `none` models the raised
`Exception`. -/
def get_git_command : PktLine → Option (List Nat)
  | PktLine.data d =>
    if CMD_MARK.isPrefixOf d then some (rstripNl (d.drop CMD_MARK.length))
    else none
  | _ => none

/-- The byte literal `REF_PREFIX = b'ref-prefix '` of `git_proxy.py`
line 41. -/
def REF_PFX : List Nat := bytesOfAscii "ref-prefix "

/-- The `ref-prefix` payload carried by one pkt, if any: data pkts whose
payload starts with `b'ref-prefix '` yield the remainder with trailing
whitespace stripped (the loop body of `get_refspecs`). -/
def getRefPfx : PktLine → Option (List Nat)
  | PktLine.data d =>
    if REF_PFX.isPrefixOf d then some (pyRstrip (d.drop REF_PFX.length))
    else none
  | _ => none

/-- The refspec `b'%b*:%b*' % (p, p)` built by `get_refspecs`. -/
def mkRefspec (p : List Nat) : List Nat :=
  p ++ [42, 58] ++ p ++ [42]

/-- `get_refspecs(pkts)` of `git_proxy.py` lines 160-169: one glob refspec
per `ref-prefix` data pkt, in order. -/
def get_refspecs (pkts : List PktLine) : List (List Nat) :=
  pkts.filterMap (fun pkt => (getRefPfx pkt).map mkRefspec)

/-- The sequence of `ref-prefix` values announced by a pkt sequence, in
order of appearance. -/
def refPrefixes (pkts : List PktLine) : List (List Nat) :=
  pkts.filterMap getRefPfx

/-- The refspec lists of the fetch subprocesses within a spawn trace, in
order. -/
def fetchSpawns (spawns : List Spawn) : List (List (List Nat)) :=
  spawns.filterMap (fun s =>
    match s with
    | Spawn.fetch rs => some rs
    | _ => none)

/-- The byte literal `b'ls-refs'` compared against the command. -/
def LS_REFS : List Nat := bytesOfAscii "ls-refs"

/-- The POST handler `git_upload_pack` of `git_proxy.py` lines 194-236,
applied to the (gzip-decoded) request body.  `fetchExit` is the exit status
of the `git fetch` child when one is spawned; the exit status of the
streaming `upload-pack` child is never awaited by the handler.  The result
is the ordered list of spawned `git` children together with the error, if
any, that escaped the handler. -/
def git_upload_pack (fetchExit : Nat) (body : List Nat) :
    List Spawn × Option HandlerError :=
  match parse_pkt_lines body with
  | none => ([], some HandlerError.uncaught)
  | some (pkts, remainder) =>
    if remainder.length > 0 then ([], some HandlerError.uncaught)
    else
      match pkts with
      | [] => ([], some HandlerError.uncaught)
      | pkt0 :: _ =>
        match get_git_command pkt0 with
        | none => ([], some HandlerError.uncaught)
        | some command =>
          if command = LS_REFS then
            let refspecs := get_refspecs pkts
            if refspecs.length > 0 then
              if fetchExit = 0 then
                ([Spawn.fetch refspecs, Spawn.uploadPack body], none)
              else ([Spawn.fetch refspecs], some HandlerError.uncaught)
            else ([Spawn.uploadPack body], none)
          else ([Spawn.uploadPack body], none)

/-- The GET handler `git_info_refs` of `git_proxy.py` lines 120-127:
`mirrorPresent` is the `os.path.isdir` test of `git_init_if_required` and
`cloneExit` the exit status of the clone child when one is spawned. -/
def git_info_refs (mirrorPresent : Bool) (cloneExit : Nat)
    (service : Option (List Nat)) : List Spawn × Option HandlerError :=
  if service ≠ some (bytesOfAscii "git-upload-pack") then
    ([], some (HandlerError.httpException 400))
  else if mirrorPresent then ([Spawn.infoRefsAdvert], none)
  else if cloneExit = 0 then ([Spawn.clone, Spawn.infoRefsAdvert], none)
  else ([Spawn.clone], some HandlerError.uncaught)

/-- A request to one of the two v2 endpoints, with the data the handlers
consume. -/
inductive V2Request where
  | infoRefs (service : Option (List Nat))
  | uploadPackPost (body : List Nat)
deriving DecidableEq

/-- The v2 request pipeline: the app-level dependency
`verify_git_protocol_version` (`git_proxy.py` lines 57-62) runs before
either handler and raises `HTTPException(400)` unless the `Git-Protocol`
header equals `b'version=2'`. -/
def handle_v2 (mirrorPresent : Bool) (cloneExit fetchExit : Nat)
    (gitProtocol : Option (List Nat)) (req : V2Request) :
    List Spawn × Option HandlerError :=
  if gitProtocol ≠ some (bytesOfAscii "version=2") then
    ([], some (HandlerError.httpException 400))
  else
    match req with
    | V2Request.infoRefs service => git_info_refs mirrorPresent cloneExit service
    | V2Request.uploadPackPost body => git_upload_pack fetchExit body

/-- The `SymRef` record of `ls_remote_proxy.py` line 27: `target` is the
referent, `ref` the symbolic name. -/
structure SymRef where
  target : List Nat
  ref : List Nat
deriving DecidableEq

/-- The `ResolvedRef` record of `ls_remote_proxy.py` line 28. -/
structure ResolvedRef where
  objid : List Nat
  ref : List Nat
deriving DecidableEq

/-- The string literal `SYMREF_PREFIX = "ref: "`. -/
def SYMREF_PFX : List Nat := bytesOfAscii "ref: "

/-- Split off the part before the first occurrence of `sep`, if there is
one. -/
def splitOnce (sep : Nat) : List Nat → Option (List Nat × List Nat)
  | [] => none
  | b :: rest =>
    if b = sep then some ([], rest)
    else (splitOnce sep rest).map (fun pr => (b :: pr.1, pr.2))

/-- Python `line.split('\t', maxsplit=2)`: at most two splits, hence one to
three parts. -/
def splitTab2 (l : List Nat) : List (List Nat) :=
  match splitOnce 9 l with
  | none => [l]
  | some (a, r1) =>
    match splitOnce 9 r1 with
    | none => [a, r1]
    | some (b, r2) => [a, b, r2]

/-- One loop iteration of `parse_refs` (`ls_remote_proxy.py` lines 33-38):
the rstripped line is unpacked as `left, ref`; `none` models the
`ValueError` raised when the split does not yield exactly two parts. -/
def parseRefLine (raw : List Nat) : Option (SymRef ⊕ ResolvedRef) :=
  match splitTab2 (pyStrRstrip raw) with
  | [left, ref] =>
    if SYMREF_PFX.isPrefixOf left then
      some (Sum.inl ⟨left.drop SYMREF_PFX.length, ref⟩)
    else some (Sum.inr ⟨left, ref⟩)
  | _ => none

/-- `parse_refs(f)` of `ls_remote_proxy.py` lines 30-39 on the list of input
lines: sym-refs and resolved refs are collected separately, each preserving
input order. -/
def parse_refs (lines : List (List Nat)) :
    Option (List SymRef × List ResolvedRef) :=
  match lines with
  | [] => some ([], [])
  | l :: rest =>
    match parseRefLine l, parse_refs rest with
    | some (Sum.inl s), some (ss, rr) => some (s :: ss, rr)
    | some (Sum.inr r), some (ss, rr) => some (ss, r :: rr)
    | _, _ => none

/-- The capability string `EXTENSIONS` of `ls_remote_proxy.py` line 17. -/
def EXTENSIONS : List Nat :=
  bytesOfAscii ("multi_ack thin-pack side-band side-band-64k ofs-delta shallow" ++
    " deepen-since deepen-not deepen-relative no-progress include-tag" ++
    " multi_ack_detailed no-done object-format=sha1 agent=git/2.30.2")

/-- The payload of the pkt advertised for one resolved ref by `run()`
(`ls_remote_proxy.py` lines 48-54): `objid`, a space, the ref name; on the
first ref only, a NUL byte, the capability string and one
` symref=-target-:-ref-` fragment per sym-ref; then a newline. -/
def advRefLine (idx : Nat) (symRefs : List SymRef) (r : ResolvedRef) :
    List Nat :=
  let line := r.objid ++ [32] ++ r.ref
  let line :=
    if idx = 0 then
      symRefs.foldl
        (fun ln s => ln ++ bytesOfAscii " symref=" ++ s.target ++ [58] ++ s.ref)
        (line ++ [0] ++ EXTENSIONS)
    else line
  line ++ [10]

/-- The advertisement body printed by `run()` after the CGI header: the
service pkt, a flush, one pkt per resolved ref, and a final flush. -/
def runAdvert (symRefs : List SymRef) (resolvedRefs : List ResolvedRef) :
    List Nat :=
  encode_pkt_line (bytesOfAscii "# service=git-upload-pack\n") ++
  bytesOfAscii "0000" ++
  (resolvedRefs.enum.map
    (fun p => encode_pkt_line (advRefLine p.1 symRefs p.2))).flatten ++
  bytesOfAscii "0000"

/-- Spec side of the reference-parser claim (section 4.2): a line is a
sym-ref record exactly when its left tab-separated field starts with
`ref: `, the target being the left field minus that marker and the source
the ref name. -/
def symRecordOfLine (raw : List Nat) : Option SymRef :=
  match splitTab2 (pyStrRstrip raw) with
  | [left, ref] =>
    if SYMREF_PFX.isPrefixOf left then
      some ⟨left.drop SYMREF_PFX.length, ref⟩
    else none
  | _ => none

/-- Spec side of the reference-parser claim (section 4.2): a line whose left
field is not marked `ref: ` is a resolved-ref record. -/
def resRecordOfLine (raw : List Nat) : Option ResolvedRef :=
  match splitTab2 (pyStrRstrip raw) with
  | [left, ref] =>
    if SYMREF_PFX.isPrefixOf left then none
    else some ⟨left, ref⟩
  | _ => none

/-- An emitting step consumes at least four bytes: control frames advance
four bytes, data frames their declared length, which is at least four. -/
theorem stepConsumes {data : List Nat} {p : PktLine} {rest : List Nat}
    (h : parseStep data = StepResult.emit p rest) :
    rest.length + 4 ≤ data.length := by
  unfold parseStep at h
  split at h
  · simp at h
  · rename_i hlen
    split at h
    · simp at h
    · rename_i L
      split at h
      · split at h
        · injection h with h1 h2
          subst h2
          simp [List.length_drop]
          omega
        · simp at h
      · rename_i hge
        split at h
        · simp at h
        · rename_i hsz
          injection h with h1 h2
          subst h2
          simp [List.length_drop]
          omega

/-- Equation of `parseFuel` at positive fuel for a returning step. -/
theorem parseFuel_succ_done {fuel : Nat} {data tail : List Nat}
    (h : parseStep data = StepResult.done tail) :
    parseFuel (fuel + 1) data = some ([], tail) := by
  simp [parseFuel, h]

/-- Equation of `parseFuel` at positive fuel for a raising step. -/
theorem parseFuel_succ_err {fuel : Nat} {data : List Nat}
    (h : parseStep data = StepResult.err) :
    parseFuel (fuel + 1) data = none := by
  simp [parseFuel, h]

/-- Equation of `parseFuel` at positive fuel for an emitting step. -/
theorem parseFuel_succ_emit {fuel : Nat} {data rest : List Nat} {p : PktLine}
    (h : parseStep data = StepResult.emit p rest) :
    parseFuel (fuel + 1) data =
      (parseFuel fuel rest).map (fun x => (p :: x.1, x.2)) := by
  simp only [parseFuel, h]
  cases parseFuel fuel rest with
  | none => rfl
  | some pr => rfl

/-- `parseFuel` does not depend on the fuel once it exceeds the buffer
length. -/
theorem parseFuel_irrel :
    ∀ f1 : Nat, ∀ data : List Nat, ∀ f2 : Nat,
      data.length < f1 → data.length < f2 →
      parseFuel f1 data = parseFuel f2 data := by
  intro f1
  induction f1 with
  | zero => intro data f2 h1 h2; omega
  | succ g ih =>
    intro data f2 h1 h2
    cases f2 with
    | zero => omega
    | succ g2 =>
      cases hstep : parseStep data with
      | done tail => rw [parseFuel_succ_done hstep, parseFuel_succ_done hstep]
      | err => rw [parseFuel_succ_err hstep, parseFuel_succ_err hstep]
      | emit p rest =>
        have hc := stepConsumes hstep
        rw [parseFuel_succ_emit hstep, parseFuel_succ_emit hstep,
          ih rest g2 (by omega) (by omega)]

/-- Unfolding equation of `parse_pkt_lines` for a returning step. -/
theorem parse_eq_done {data tail : List Nat}
    (h : parseStep data = StepResult.done tail) :
    parse_pkt_lines data = some ([], tail) := by
  simp [parse_pkt_lines, parseFuel, h]

/-- Unfolding equation of `parse_pkt_lines` for a raising step. -/
theorem parse_eq_err {data : List Nat} (h : parseStep data = StepResult.err) :
    parse_pkt_lines data = none := by
  simp [parse_pkt_lines, parseFuel, h]

/-- Unfolding equation of `parse_pkt_lines` for an emitting step. -/
theorem parse_eq_emit {data : List Nat} {p : PktLine} {rest : List Nat}
    (h : parseStep data = StepResult.emit p rest) :
    parse_pkt_lines data = (parse_pkt_lines rest).map (fun x => (p :: x.1, x.2)) := by
  have hc := stepConsumes h
  have hir : parseFuel data.length rest = parse_pkt_lines rest :=
    parseFuel_irrel data.length rest (rest.length + 1) (by omega) (by omega)
  conv_lhs => rw [parse_pkt_lines]
  rw [parseFuel_succ_emit h, hir]

/-- A returning step returns the whole unconsumed suffix as remainder. -/
theorem parseStep_done_eq {data tail : List Nat}
    (h : parseStep data = StepResult.done tail) : tail = data := by
  unfold parseStep at h
  split at h
  · injection h with h1; exact h1.symm
  · split at h
    · simp at h
    · split at h
      · split at h
        · simp at h
        · simp at h
      · split at h
        · injection h with h1; exact h1.symm
        · simp at h

/-- An emitting step is insensitive to bytes beyond the emitted frame. -/
theorem parseStep_append {B1 B2 : List Nat} {p : PktLine} {rest : List Nat}
    (h : parseStep B1 = StepResult.emit p rest) :
    parseStep (B1 ++ B2) = StepResult.emit p (rest ++ B2) := by
  unfold parseStep at h
  split at h
  · simp at h
  · rename_i hlen
    have hl2 : ¬ (B1 ++ B2).length < 4 := by
      simp only [List.length_append]
      omega
    split at h
    · simp at h
    · rename_i L hL
      split at h
      · rename_i h4
        split at h
        · rename_i c hc
          injection h with h1 h2
          subst h1
          subst h2
          unfold parseStep
          rw [if_neg hl2, List.take_append_of_le_length (by omega)]
          split
          · rename_i heq
            rw [hL] at heq
            simp at heq
          · rename_i L' heq
            rw [hL] at heq
            injection heq with heq1
            subst heq1
            rw [if_pos h4, hc, List.drop_append_of_le_length (by omega)]
        · simp at h
      · rename_i h4
        split at h
        · simp at h
        · rename_i hsz
          injection h with h1 h2
          subst h1
          subst h2
          have htn : L.toNat ≤ B1.length := by omega
          unfold parseStep
          rw [if_neg hl2, List.take_append_of_le_length (by omega)]
          split
          · rename_i heq
            rw [hL] at heq
            simp at heq
          · rename_i L' heq
            rw [hL] at heq
            injection heq with heq1
            subst heq1
            rw [if_neg h4,
              if_neg (show ¬ ((B1 ++ B2).length : Int) < L by
                simp only [List.length_append]; push_cast; omega),
              List.take_append_of_le_length htn,
              List.drop_append_of_le_length htn]

/-- C10: pkt-line decoding terminates on every finite buffer because on each
loop iteration the function either returns or advances by at least four
bytes: control frames advance four, data frames their declared length, which
is at least four, so the unconsumed length is a decreasing measure. -/
theorem parse_step_consumes_four (data : List Nat) (p : PktLine)
    (rest : List Nat) (h : parseStep data = StepResult.emit p rest) :
    rest.length + 4 ≤ data.length :=
  stepConsumes h

/-- Witness for C10 at the concrete buffer `b'0000'`. -/
theorem parse_step_consumes_four_witness :
    ([] : List Nat).length + 4 ≤ (bytesOfAscii "0000").length :=
  parse_step_consumes_four (bytesOfAscii "0000") PktLine.flush [] (by decide)

/-- `hexChar` lands in `0-9` or `a-f`. -/
theorem hexChar_range (d : Nat) (h : d < 16) :
    (48 ≤ hexChar d ∧ hexChar d ≤ 57) ∨ (97 ≤ hexChar d ∧ hexChar d ≤ 102) := by
  unfold hexChar
  split
  · left; omega
  · right; omega

/-- Hex digit characters are not Python whitespace. -/
theorem hexChar_not_space (d : Nat) (h : d < 16) :
    isPySpace (hexChar d) = false := by
  rcases hexChar_range d h with ⟨h1, h2⟩ | ⟨h1, h2⟩ <;>
    simp [isPySpace] <;> omega

/-- Hex digit characters satisfy `isHexDigit`. -/
theorem isHexDigit_hexChar (d : Nat) (h : d < 16) :
    isHexDigit (hexChar d) = true := by
  rcases hexChar_range d h with ⟨h1, h2⟩ | ⟨h1, h2⟩ <;>
    simp [isHexDigit] <;> omega

/-- `hexVal` inverts `hexChar`. -/
theorem hexVal_hexChar (d : Nat) (h : d < 16) : hexVal (hexChar d) = d := by
  unfold hexChar hexVal
  split
  · split
    · omega
    · omega
  · split
    · omega
    · split <;> omega

/-- Every byte produced by `toHexDigitsAux` is a hex digit character. -/
theorem toHexDigitsAux_mem :
    ∀ fuel n b, b ∈ toHexDigitsAux fuel n → ∃ d, d < 16 ∧ b = hexChar d := by
  intro fuel
  induction fuel with
  | zero =>
    intro n b hb
    simp only [toHexDigitsAux, List.mem_singleton] at hb
    exact ⟨n % 16, by omega, hb⟩
  | succ g ih =>
    intro n b hb
    simp only [toHexDigitsAux] at hb
    split at hb
    · simp only [List.mem_singleton] at hb
      rename_i hn
      exact ⟨n, hn, hb⟩
    · rcases List.mem_append.mp hb with hb1 | hb2
      · exact ih (n / 16) b hb1
      · simp only [List.mem_singleton] at hb2
        exact ⟨n % 16, by omega, hb2⟩

/-- Folding the hex-digit values of `toHexDigitsAux fuel n` reconstructs
`n` (shifted past the accumulator). -/
theorem toHexDigitsAux_foldl :
    ∀ fuel n acc, n ≤ fuel →
      (toHexDigitsAux fuel n).foldl (fun a b => 16 * a + hexVal b) acc =
        acc * 16 ^ (toHexDigitsAux fuel n).length + n := by
  intro fuel
  induction fuel with
  | zero =>
    intro n acc hn
    have hn0 : n = 0 := by omega
    subst hn0
    simp [toHexDigitsAux, hexVal_hexChar 0 (by omega)]
    ring
  | succ g ih =>
    intro n acc hn
    by_cases h16 : n < 16
    · simp [toHexDigitsAux, if_pos h16, hexVal_hexChar n h16]
      ring
    · have hrec : toHexDigitsAux (g + 1) n =
          toHexDigitsAux g (n / 16) ++ [hexChar (n % 16)] := by
        simp [toHexDigitsAux, if_neg h16]
      have hdiv : n / 16 ≤ g := by omega
      rw [hrec, List.foldl_append, ih (n / 16) acc hdiv]
      simp only [List.foldl_cons, List.foldl_nil, List.length_append,
        List.length_singleton]
      rw [hexVal_hexChar (n % 16) (by omega), pow_succ]
      have hmod : 16 * (n / 16) + n % 16 = n := Nat.div_add_mod n 16
      have : 16 * (acc * 16 ^ (toHexDigitsAux g (n / 16)).length + n / 16) +
          n % 16 =
          acc * (16 ^ (toHexDigitsAux g (n / 16)).length * 16) +
            (16 * (n / 16) + n % 16) := by ring
      rw [this, hmod]

/-- `toHexDigitsAux` of a value below `16 ^ (k + 1)` has at most `k + 1`
digits. -/
theorem toHexDigitsAux_length :
    ∀ fuel n k, n ≤ fuel → n < 16 ^ (k + 1) →
      (toHexDigitsAux fuel n).length ≤ k + 1 := by
  intro fuel
  induction fuel with
  | zero =>
    intro n k hn hk
    have hn0 : n = 0 := by omega
    subst hn0
    simp [toHexDigitsAux]
  | succ g ih =>
    intro n k hn hk
    by_cases h16 : n < 16
    · simp [toHexDigitsAux, if_pos h16]
    · cases k with
      | zero =>
        norm_num at hk
        omega
      | succ k2 =>
        have hrec : toHexDigitsAux (g + 1) n =
            toHexDigitsAux g (n / 16) ++ [hexChar (n % 16)] := by
          simp [toHexDigitsAux, if_neg h16]
        have hdivlt : n / 16 < 16 ^ (k2 + 1) := by
          rw [Nat.div_lt_iff_lt_mul (by omega)]
          calc n < 16 ^ (k2 + 1 + 1) := hk
            _ = 16 ^ (k2 + 1) * 16 := by rw [pow_succ]
        have := ih (n / 16) k2 (by omega) hdivlt
        rw [hrec]
        simp only [List.length_append, List.length_singleton]
        omega

/-- `pyHex04` of a value below 65536 is exactly four characters. -/
theorem pyHex04_length {m : Nat} (h : m < 65536) :
    (pyHex04 m).length = 4 := by
  have hlen : (toHexDigits m).length ≤ 4 := by
    have : m < 16 ^ (3 + 1) := by norm_num; omega
    exact toHexDigitsAux_length m m 3 (le_refl m) this
  simp only [pyHex04, List.length_append, List.length_replicate]
  omega

/-- Every byte of `pyHex04 m` is a hex digit character. -/
theorem pyHex04_mem {m b : Nat} (h : b ∈ pyHex04 m) :
    ∃ d, d < 16 ∧ b = hexChar d := by
  rcases List.mem_append.mp h with h1 | h2
  · have hb : b = 48 := List.eq_of_mem_replicate h1
    exact ⟨0, by omega, by rw [hb]; rfl⟩
  · exact toHexDigitsAux_mem m m b h2

/-- Folding the hex-digit values of `pyHex04 m` from zero yields `m`. -/
theorem pyHex04_foldl (m : Nat) :
    (pyHex04 m).foldl (fun a b => 16 * a + hexVal b) 0 = m := by
  have hrep : ∀ j, (List.replicate j (48 : Nat)).foldl
      (fun a b => 16 * a + hexVal b) 0 = 0 := by
    intro j
    induction j with
    | zero => rfl
    | succ i ih => simpa [List.replicate_succ, hexVal] using ih
  simp only [pyHex04, List.foldl_append, hrep]
  have := toHexDigitsAux_foldl m m 0 (le_refl m)
  simpa using this

/-- `dropWhile` of a predicate false on every member is the identity. -/
theorem dropWhile_false {p : Nat → Bool} :
    ∀ l : List Nat, (∀ b ∈ l, p b = false) → l.dropWhile p = l := by
  intro l h
  cases l with
  | nil => rfl
  | cons b rest => simp [List.dropWhile_cons, h b (by simp)]

/-- `stripWS` is the identity on whitespace-free byte strings. -/
theorem stripWS_eq_self {l : List Nat}
    (h : ∀ b ∈ l, isPySpace b = false) : stripWS l = l := by
  unfold stripWS
  rw [dropWhile_false l h]
  rw [dropWhile_false l.reverse (fun b hb => h b (List.mem_reverse.mp hb))]
  exact List.reverse_reverse l

/-- `hexDigitsCore` on a list of plain hex digit characters folds their
values into the accumulator. -/
theorem hexDigitsCore_digits :
    ∀ l : List Nat, (∀ b ∈ l, ∃ d, d < 16 ∧ b = hexChar d) → ∀ acc,
      hexDigitsCore acc l =
        some (l.foldl (fun a b => 16 * a + hexVal b) acc) := by
  intro l
  induction l with
  | nil => intro _ acc; rfl
  | cons b rest ih =>
    intro hmem acc
    obtain ⟨d, hd, hb⟩ := hmem b (by simp)
    have hb95 : ¬ b = 95 := by
      subst hb
      rcases hexChar_range d hd with ⟨h1, h2⟩ | ⟨h1, h2⟩ <;> omega
    have hbd : isHexDigit b = true := by
      subst hb
      exact isHexDigit_hexChar d hd
    rw [hexDigitsCore.eq_def]
    simp only []
    rw [if_neg hb95, if_pos hbd, List.foldl_cons]
    exact ih (fun x hx => hmem x (by simp [hx])) (16 * acc + hexVal b)

/-- `pyHexDigits` on a nonempty list of plain hex digit characters returns
its value. -/
theorem pyHexDigits_digits {l : List Nat}
    (hmem : ∀ b ∈ l, ∃ d, d < 16 ∧ b = hexChar d) (hne : l ≠ []) :
    pyHexDigits l = some (l.foldl (fun a b => 16 * a + hexVal b) 0) := by
  rcases l with _ | ⟨a, rest⟩
  · exact absurd rfl hne
  · obtain ⟨d, hd, ha⟩ := hmem a (by simp)
    have had : isHexDigit a = true := by
      subst ha
      exact isHexDigit_hexChar d hd
    simp only [pyHexDigits, had, if_true]
    rw [hexDigitsCore_digits rest (fun x hx => hmem x (by simp [hx])) (hexVal a)]
    simp [List.foldl_cons]

/-- On plain hex digit characters `pyHexBody` has no `0x` marker to
strip. -/
theorem pyHexBody_digits {l : List Nat}
    (hmem : ∀ b ∈ l, ∃ d, d < 16 ∧ b = hexChar d) :
    pyHexBody l = pyHexDigits l := by
  rcases l with _ | ⟨a, _ | ⟨b, rest⟩⟩
  · rfl
  · rfl
  · obtain ⟨d, hd, hb⟩ := hmem b (by simp)
    have : ¬ (a = 48 ∧ (b = 120 ∨ b = 88)) := by
      intro hcon
      rcases hexChar_range d hd with ⟨h1, h2⟩ | ⟨h1, h2⟩ <;>
        rcases hcon.2 with hb1 | hb1 <;> omega
    simp only [pyHexBody, if_neg this]

/-- `pyIntHex` on a nonempty list of plain hex digit characters returns the
folded value. -/
theorem pyIntHex_digits {l : List Nat}
    (hmem : ∀ b ∈ l, ∃ d, d < 16 ∧ b = hexChar d) (hne : l ≠ []) :
    pyIntHex l =
      some ((l.foldl (fun a b => 16 * a + hexVal b) 0 : Nat) : Int) := by
  have hstrip : stripWS l = l := stripWS_eq_self (fun b hb => by
    obtain ⟨d, hd, hbb⟩ := hmem b hb
    subst hbb
    exact hexChar_not_space d hd)
  rcases hl : l with _ | ⟨a, rest⟩
  · exact absurd hl hne
  · subst hl
    obtain ⟨d, hd, ha⟩ := hmem a (by simp)
    have ha43 : ¬ a = 43 := by
      subst ha
      rcases hexChar_range d hd with ⟨h1, h2⟩ | ⟨h1, h2⟩ <;> omega
    have ha45 : ¬ a = 45 := by
      subst ha
      rcases hexChar_range d hd with ⟨h1, h2⟩ | ⟨h1, h2⟩ <;> omega
    simp only [pyIntHex, hstrip, if_neg ha43, if_neg ha45]
    rw [pyHexBody_digits hmem, pyHexDigits_digits hmem (by simp)]
    rfl

/-- `pyIntHex` inverts `pyHex04` below 65536. -/
theorem pyIntHex_pyHex04 {m : Nat} (h : m < 65536) :
    pyIntHex (pyHex04 m) = some (m : Int) := by
  have hne : pyHex04 m ≠ [] := by
    intro hcon
    have := pyHex04_length h
    rw [hcon] at this
    simp at this
  rw [pyIntHex_digits (fun b hb => pyHex04_mem hb) hne, pyHex04_foldl m]

/-- A step over a well-formed four-byte length followed by exactly the
declared payload emits one data pkt and leaves nothing. -/
theorem parseStep_mk_data {pre payload : List Nat} {L : Nat}
    (hpre : pre.length = 4) (hL : pyIntHex pre = some (L : Int))
    (hlen : pre.length + payload.length = L) (h4 : 4 ≤ L) :
    parseStep (pre ++ payload) = StepResult.emit (PktLine.data payload) [] := by
  unfold parseStep
  rw [if_neg (by simp only [List.length_append]; omega)]
  rw [show (pre ++ payload).take 4 = pre by rw [← hpre, List.take_left]]
  rw [hL]
  split
  · rename_i heq
    simp at heq
  · rename_i pktLength heq
    injection heq with heq1
    subst heq1
    rw [if_neg (by omega)]
    rw [if_neg (by simp only [List.length_append]; push_cast; omega)]
    rw [Int.toNat_natCast]
    rw [List.take_of_length_le (by simp only [List.length_append]; omega)]
    rw [List.drop_append_of_le_length (by omega)]
    rw [show pre.drop 4 = [] from by rw [← hpre, List.drop_length]]
    rw [List.drop_eq_nil_of_le (by simp only [List.length_append]; omega)]
    simp

/-- C1: round-trip of the pkt-line codec.  For every pkt-line that is
Flush, Delimiter, Response-End, or a data pkt with payload of length at
most 65516, decoding (`parse_pkt_lines`) the spec encoding (`encodePkt`)
yields exactly that one pkt-line with an empty trailing remainder. -/
theorem pkt_encode_decode_roundtrip (p : PktLine) (h : pktEncodable p = true) :
    parse_pkt_lines (encodePkt p) = some ([p], []) := by
  cases p with
  | flush => decide
  | delimiter => decide
  | responseEnd => decide
  | invalid => simp [pktEncodable] at h
  | data payload =>
    have hlen : payload.length ≤ 65516 := by
      simpa [pktEncodable] using h
    have hm : payload.length + 4 < 65536 := by omega
    have hstep : parseStep (encodePkt (PktLine.data payload)) =
        StepResult.emit (PktLine.data payload) [] := by
      show parseStep (pyHex04 (payload.length + 4) ++ payload) =
        StepResult.emit (PktLine.data payload) []
      exact parseStep_mk_data (pyHex04_length hm) (pyIntHex_pyHex04 hm)
        (by rw [pyHex04_length hm]; omega) (by omega)
    rw [parse_eq_emit hstep,
      parse_eq_done (show parseStep [] = StepResult.done [] by decide)]
    rfl

/-- Witness for C1 at the one-byte payload `b'a'`. -/
theorem pkt_encode_decode_roundtrip_witness :
    parse_pkt_lines (encodePkt (PktLine.data [97])) =
      some ([PktLine.data [97]], []) :=
  pkt_encode_decode_roundtrip (PktLine.data [97]) (by decide)

/-- Resumability, by strong induction on the length of the first buffer. -/
theorem parse_resumable_aux :
    ∀ N B1, B1.length ≤ N → ∀ B2 ps1 t1 ps2 t2,
      parse_pkt_lines B1 = some (ps1, t1) →
      parse_pkt_lines (t1 ++ B2) = some (ps2, t2) →
      parse_pkt_lines (B1 ++ B2) = some (ps1 ++ ps2, t2) := by
  intro N
  induction N with
  | zero =>
    intro B1 hN B2 ps1 t1 ps2 t2 h1 h2
    cases hstep : parseStep B1 with
    | done tail =>
      have htail : tail = B1 := parseStep_done_eq hstep
      rw [parse_eq_done hstep] at h1
      simp only [Option.some.injEq, Prod.mk.injEq] at h1
      obtain ⟨hps, ht⟩ := h1
      subst hps
      subst htail
      subst ht
      simpa using h2
    | err =>
      rw [parse_eq_err hstep] at h1
      exact absurd h1 (by simp)
    | emit p rest =>
      have := stepConsumes hstep
      omega
  | succ n ih =>
    intro B1 hN B2 ps1 t1 ps2 t2 h1 h2
    cases hstep : parseStep B1 with
    | done tail =>
      have htail : tail = B1 := parseStep_done_eq hstep
      rw [parse_eq_done hstep] at h1
      simp only [Option.some.injEq, Prod.mk.injEq] at h1
      obtain ⟨hps, ht⟩ := h1
      subst hps
      subst htail
      subst ht
      simpa using h2
    | err =>
      rw [parse_eq_err hstep] at h1
      exact absurd h1 (by simp)
    | emit p rest =>
      have hc := stepConsumes hstep
      rw [parse_eq_emit hstep] at h1
      cases hrest : parse_pkt_lines rest with
      | none =>
        rw [hrest] at h1
        exact absurd h1 (by simp)
      | some pr =>
        obtain ⟨a, b⟩ := pr
        rw [hrest] at h1
        simp only [Option.map_some', Option.some.injEq, Prod.mk.injEq] at h1
        obtain ⟨hps, ht⟩ := h1
        subst hps
        subst ht
        have hrec := ih rest (by omega) B2 a b ps2 t2 hrest h2
        rw [parse_eq_emit (parseStep_append hstep), hrec]
        rfl

/-- C2: decode is resumable.  For every byte buffer and every split
`B = B1 ++ B2`, if decoding `B1` yields `(ps1, t1)` and decoding
`t1 ++ B2` yields `(ps2, t2)`, then decoding `B` yields
`(ps1 ++ ps2, t2)`: the decoder stops only at whole-frame boundaries and
never consumes a partial frame. -/
theorem parse_pkt_lines_resumable (B B1 B2 : List Nat)
    (ps1 ps2 : List PktLine) (t1 t2 : List Nat) (hsplit : B = B1 ++ B2)
    (h1 : parse_pkt_lines B1 = some (ps1, t1))
    (h2 : parse_pkt_lines (t1 ++ B2) = some (ps2, t2)) :
    parse_pkt_lines B = some (ps1 ++ ps2, t2) := by
  subst hsplit
  exact parse_resumable_aux B1.length B1 (le_refl _) B2 ps1 t1 ps2 t2 h1 h2

/-- Witness for C2 at the split `b'00000000' = b'00000' ++ b'000'`. -/
theorem parse_pkt_lines_resumable_witness :
    parse_pkt_lines (bytesOfAscii "00000000") =
      some ([PktLine.flush, PktLine.flush], []) :=
  parse_pkt_lines_resumable (bytesOfAscii "00000000") (bytesOfAscii "00000")
    (bytesOfAscii "000") [PktLine.flush] [PktLine.flush] [48] []
    (by decide) (by decide) (by decide)

/-- C7 (amended): a four-byte length prefix that Python `int(-, 16)`
rejects makes pkt-line decoding raise a protocol error. -/
theorem malformed_length_hex_err (data : List Nat) (hlen : 4 ≤ data.length)
    (hbad : pyIntHex (data.take 4) = none) :
    parse_pkt_lines data = none := by
  apply parse_eq_err
  unfold parseStep
  rw [if_neg (by omega), hbad]

/-- Witness for C7 at the buffer `b'zzzz'`. -/
theorem malformed_length_hex_err_witness :
    parse_pkt_lines (bytesOfAscii "zzzz") = none :=
  malformed_length_hex_err (bytesOfAscii "zzzz") (by decide) (by decide)

/-- C7 counterexample: the length prefix `b'0x10'` is not four hex digits
(`x` is not a hex digit), yet the decoder does not signal a protocol error:
Python `int(-, 16)` accepts the `0x` marker, so the frame is silently read
as a 16-byte data pkt. -/
theorem malformed_length_hex_counterexample :
    isHexDigit 120 = false ∧
    (bytesOfAscii "0x10abcdabcdabcd").take 4 = bytesOfAscii "0x10" ∧
    parse_pkt_lines (bytesOfAscii "0x10abcdabcdabcd") =
      some ([PktLine.data (bytesOfAscii "abcdabcdabcd")], []) :=
  ⟨by decide, by decide, by decide⟩

/-- `get_refspecs` is `mkRefspec` mapped over the announced prefixes. -/
theorem get_refspecs_eq (pkts : List PktLine) :
    get_refspecs pkts = (refPrefixes pkts).map mkRefspec := by
  simp only [get_refspecs, refPrefixes, List.map_filterMap]

/-- Evaluation of the POST handler once the body parses with empty
remainder and the first pkt carries a command. -/
theorem git_upload_pack_eval {body : List Nat} {pkt0 : PktLine}
    {rest' : List PktLine} {cmd : List Nat} (fetchExit : Nat)
    (hparse : parse_pkt_lines body = some (pkt0 :: rest', []))
    (hcmd : get_git_command pkt0 = some cmd) :
    git_upload_pack fetchExit body =
      if cmd = LS_REFS then
        if (get_refspecs (pkt0 :: rest')).length > 0 then
          if fetchExit = 0 then
            ([Spawn.fetch (get_refspecs (pkt0 :: rest')),
              Spawn.uploadPack body], none)
          else
            ([Spawn.fetch (get_refspecs (pkt0 :: rest'))],
              some HandlerError.uncaught)
        else ([Spawn.uploadPack body], none)
      else ([Spawn.uploadPack body], none) := by
  unfold git_upload_pack
  rw [hparse]
  simp only [List.length_nil, gt_iff_lt, Nat.lt_irrefl, if_false, hcmd]

/-- C3: within a valid v2 POST body whose first pkt carries a command, the
`ls-refs` command with zero announced `ref-prefix` values spawns no fetch;
with a nonempty list of distinct prefixes it spawns exactly one fetch
carrying exactly one refspec `P*:P*` per prefix in order of appearance; and
a command other than `ls-refs` spawns no fetch. -/
theorem ls_refs_fetch_spawn_refspecs (fetchExit : Nat) (body : List Nat)
    (pkt0 : PktLine) (rest' : List PktLine) (cmd : List Nat)
    (hparse : parse_pkt_lines body = some (pkt0 :: rest', []))
    (hcmd : get_git_command pkt0 = some cmd)
    (hdist : (refPrefixes (pkt0 :: rest')).Nodup) :
    (cmd ≠ LS_REFS →
      fetchSpawns (git_upload_pack fetchExit body).1 = []) ∧
    (cmd = LS_REFS → refPrefixes (pkt0 :: rest') = [] →
      fetchSpawns (git_upload_pack fetchExit body).1 = []) ∧
    (cmd = LS_REFS → refPrefixes (pkt0 :: rest') ≠ [] →
      fetchSpawns (git_upload_pack fetchExit body).1 =
        [(refPrefixes (pkt0 :: rest')).map mkRefspec]) := by
  rw [git_upload_pack_eval fetchExit hparse hcmd]
  refine ⟨?_, ?_, ?_⟩
  · intro hne
    rw [if_neg hne]
    rfl
  · intro heq hempty
    rw [if_pos heq, get_refspecs_eq, hempty]
    rfl
  · intro heq hne
    rw [if_pos heq, get_refspecs_eq]
    have hpos : 0 < ((refPrefixes (pkt0 :: rest')).map mkRefspec).length := by
      simp only [List.length_map]
      exact List.length_pos.mpr hne
    rw [if_pos hpos]
    by_cases hf : fetchExit = 0
    · rw [if_pos hf]
      rfl
    · rw [if_neg hf]
      rfl

/-- Witness for C3 at an `ls-refs` body announcing the single prefix
`refs/heads/`. -/
theorem ls_refs_fetch_spawn_refspecs_witness :
    fetchSpawns (git_upload_pack 0
        (bytesOfAscii "0014command=ls-refs\n001bref-prefix refs/heads/\n0000")).1 =
      [[bytesOfAscii "refs/heads/*:refs/heads/*"]] := by
  have h := ls_refs_fetch_spawn_refspecs 0
    (bytesOfAscii "0014command=ls-refs\n001bref-prefix refs/heads/\n0000")
    (PktLine.data (bytesOfAscii "command=ls-refs\n"))
    [PktLine.data (bytesOfAscii "ref-prefix refs/heads/\n"), PktLine.flush]
    (bytesOfAscii "ls-refs") (by decide) (by decide) (by decide)
  have h3 := h.2.2 (by decide) (by decide)
  rw [h3]
  decide

/-- C5 (amended): a POST body that decodes with a non-empty trailing
remainder makes the handler raise a plain (uncaught) exception - not an
`HTTPException` with status 400 - and spawn no subprocess. -/
theorem nonempty_remainder_uncaught (fetchExit : Nat) (body : List Nat)
    (pkts : List PktLine) (rem : List Nat)
    (hparse : parse_pkt_lines body = some (pkts, rem)) (hrem : rem ≠ []) :
    git_upload_pack fetchExit body = ([], some HandlerError.uncaught) := by
  unfold git_upload_pack
  rw [hparse]
  simp only []
  rw [if_pos (List.length_pos.mpr hrem)]

/-- Witness for C5 at the one-byte body `b'0'`. -/
theorem nonempty_remainder_uncaught_witness :
    git_upload_pack 0 (bytesOfAscii "0") = ([], some HandlerError.uncaught) :=
  nonempty_remainder_uncaught 0 (bytesOfAscii "0") [] [48]
    (by decide) (by decide)

/-- C5 counterexample: the body `b'0'` decodes with remainder `b'0'`, and
the handler fails with an uncaught exception, which the HTTP layer reports
as status 500, not with an `HTTPException` of status 400. -/
theorem nonempty_remainder_counterexample :
    parse_pkt_lines (bytesOfAscii "0") = some ([], bytesOfAscii "0") ∧
    git_upload_pack 0 (bytesOfAscii "0") = ([], some HandlerError.uncaught) ∧
    httpStatus HandlerError.uncaught = 500 ∧
    HandlerError.uncaught ≠ HandlerError.httpException 400 :=
  ⟨by decide, by decide, rfl, by decide⟩

/-- C6 (amended): a first pkt carrying `command=` with any command other
than `ls-refs` is not rejected: the handler spawns no fetch and exactly one
upload-pack subprocess fed the original body. -/
theorem unknown_command_spawns_upload_pack (fetchExit : Nat) (body : List Nat)
    (pkt0 : PktLine) (rest' : List PktLine) (cmd : List Nat)
    (hparse : parse_pkt_lines body = some (pkt0 :: rest', []))
    (hcmd : get_git_command pkt0 = some cmd) (hne : cmd ≠ LS_REFS) :
    git_upload_pack fetchExit body = ([Spawn.uploadPack body], none) := by
  rw [git_upload_pack_eval fetchExit hparse hcmd, if_neg hne]

/-- Witness for C6 at the body `b'0010command=foo\n0000'`. -/
theorem unknown_command_spawns_upload_pack_witness :
    git_upload_pack 0 (bytesOfAscii "0010command=foo\n0000") =
      ([Spawn.uploadPack (bytesOfAscii "0010command=foo\n0000")], none) :=
  unknown_command_spawns_upload_pack 0 (bytesOfAscii "0010command=foo\n0000")
    (PktLine.data (bytesOfAscii "command=foo\n")) [PktLine.flush]
    (bytesOfAscii "foo") (by decide) (by decide) (by decide)

/-- C6 counterexample: for the command `foo` (neither `ls-refs` nor
`fetch`) the handler spawns an upload-pack subprocess and reports no error
at all, so the request is not rejected with status 400. -/
theorem unknown_command_counterexample :
    git_upload_pack 0 (bytesOfAscii "0010command=foo\n0000") =
      ([Spawn.uploadPack (bytesOfAscii "0010command=foo\n0000")], none) ∧
    (git_upload_pack 0 (bytesOfAscii "0010command=foo\n0000")).2 ≠
      some (HandlerError.httpException 400) :=
  ⟨by decide, by decide⟩

/-- C8: any request to either v2 endpoint whose `Git-Protocol` header is
absent or differs from `version=2` is answered with status 400 and no
subprocess is spawned. -/
theorem git_protocol_gate_400 (mirrorPresent : Bool)
    (cloneExit fetchExit : Nat) (gitProtocol : Option (List Nat))
    (req : V2Request)
    (h : gitProtocol ≠ some (bytesOfAscii "version=2")) :
    handle_v2 mirrorPresent cloneExit fetchExit gitProtocol req =
      ([], some (HandlerError.httpException 400)) := by
  unfold handle_v2
  rw [if_pos h]

/-- Witness for C8 at an absent header. -/
theorem git_protocol_gate_400_witness :
    handle_v2 true 0 0 none (V2Request.infoRefs none) =
      ([], some (HandlerError.httpException 400)) :=
  git_protocol_gate_400 true 0 0 none (V2Request.infoRefs none) (by decide)

/-- A list of length two is literally a pair. -/
theorem list_len2 {α : Type} {l : List α} (h : l.length = 2) :
    ∃ a b, l = [a, b] := by
  rcases l with _ | ⟨a, _ | ⟨b, _ | ⟨c, t⟩⟩⟩
  · simp at h
  · simp at h
  · exact ⟨a, b, rfl⟩
  · simp at h

/-- C9 (amended): every input line whose rstripped text splits on tab into
exactly two fields yields exactly one record; the record is a `SymRef`
exactly when the left field starts with `ref: ` (target = left field minus
that marker, source = the ref name) and a `ResolvedRef` otherwise, and
order is preserved within each category. -/
theorem parse_refs_records (lines : List (List Nat))
    (h : ∀ l ∈ lines, (splitTab2 (pyStrRstrip l)).length = 2) :
    parse_refs lines =
      some (lines.filterMap symRecordOfLine,
        lines.filterMap resRecordOfLine) ∧
    (lines.filterMap symRecordOfLine).length +
      (lines.filterMap resRecordOfLine).length = lines.length := by
  induction lines with
  | nil => exact ⟨rfl, rfl⟩
  | cons l rest ih =>
    obtain ⟨hp, hlen⟩ := ih (fun x hx => h x (by simp [hx]))
    obtain ⟨left, ref, hsplit⟩ := list_len2 (h l (by simp))
    by_cases hpfx : SYMREF_PFX.isPrefixOf left
    · have hline : parseRefLine l =
          some (Sum.inl ⟨left.drop SYMREF_PFX.length, ref⟩) := by
        unfold parseRefLine
        rw [hsplit]
        simp [hpfx]
      have hsym : symRecordOfLine l =
          some ⟨left.drop SYMREF_PFX.length, ref⟩ := by
        unfold symRecordOfLine
        rw [hsplit]
        simp [hpfx]
      have hres : resRecordOfLine l = none := by
        unfold resRecordOfLine
        rw [hsplit]
        simp [hpfx]
      constructor
      · unfold parse_refs
        rw [hline, hp]
        simp [List.filterMap_cons, hsym, hres]
      · simp only [List.filterMap_cons, hsym, hres, List.length_cons]
        omega
    · have hline : parseRefLine l = some (Sum.inr ⟨left, ref⟩) := by
        unfold parseRefLine
        rw [hsplit]
        simp [hpfx]
      have hsym : symRecordOfLine l = none := by
        unfold symRecordOfLine
        rw [hsplit]
        simp [hpfx]
      have hres : resRecordOfLine l = some ⟨left, ref⟩ := by
        unfold resRecordOfLine
        rw [hsplit]
        simp [hpfx]
      constructor
      · unfold parse_refs
        rw [hline, hp]
        simp [List.filterMap_cons, hsym, hres]
      · simp only [List.filterMap_cons, hsym, hres, List.length_cons]
        omega

/-- Witness for C9 at the single sym-ref line of the spec scenario. -/
theorem parse_refs_records_witness :
    parse_refs [bytesOfAscii "ref: refs/heads/main\tHEAD"] =
        some ([bytesOfAscii "ref: refs/heads/main\tHEAD"].filterMap
            symRecordOfLine,
          [bytesOfAscii "ref: refs/heads/main\tHEAD"].filterMap
            resRecordOfLine) ∧
      ([bytesOfAscii "ref: refs/heads/main\tHEAD"].filterMap
          symRecordOfLine).length +
        ([bytesOfAscii "ref: refs/heads/main\tHEAD"].filterMap
          resRecordOfLine).length =
        [bytesOfAscii "ref: refs/heads/main\tHEAD"].length :=
  parse_refs_records [bytesOfAscii "ref: refs/heads/main\tHEAD"] (by decide)

/-- C9 counterexample: a newline-terminated input line containing no tab
yields no record at all - `parse_refs` raises (`ValueError` on unpacking) -
contradicting the claim that every input line yields exactly one
record. -/
theorem parse_refs_tabless_counterexample :
    parse_refs [bytesOfAscii "HEAD\n"] = none := by decide

/-- C4 (code bug): on the spec scenario input the parser produces
target = `refs/heads/main`, source = `HEAD`, but `run()` renders the
capability fragment as ` symref=refs/heads/main:HEAD`
(`symref=-target-:-source-`), not the ` symref=HEAD:refs/heads/main`
(`symref=-source-:-target-`) that the spec - and git's own capability
format - require. -/
theorem legacy_symref_capability_swapped :
    parse_refs [bytesOfAscii "ref: refs/heads/main\tHEAD",
        bytesOfAscii "abc4567890abc4567890abc4567890abc4567890\tHEAD"] =
      some ([⟨bytesOfAscii "refs/heads/main", bytesOfAscii "HEAD"⟩],
        [⟨bytesOfAscii "abc4567890abc4567890abc4567890abc4567890",
          bytesOfAscii "HEAD"⟩]) ∧
    advRefLine 0 [⟨bytesOfAscii "refs/heads/main", bytesOfAscii "HEAD"⟩]
        ⟨bytesOfAscii "abc4567890abc4567890abc4567890abc4567890",
          bytesOfAscii "HEAD"⟩ =
      bytesOfAscii "abc4567890abc4567890abc4567890abc4567890 HEAD" ++ [0] ++
        EXTENSIONS ++ bytesOfAscii " symref=refs/heads/main:HEAD\n" ∧
    bytesOfAscii " symref=refs/heads/main:HEAD" ≠
      bytesOfAscii " symref=HEAD:refs/heads/main" :=
  ⟨by decide, by decide, by decide⟩
